import Mathlib

/-!
Verification development for the clientes-clube-h11 reconciliation core.

The Python source is shallowly embedded:
* `ClienteSupabase`, `AssinanteDict`, `SyncStats` mirror the data shapes of
  `supabase_integration.py` and `cashbarber_extractor.py`.
* The external Supabase client is abstracted: the one-time snapshot fetch
  becomes the `clientes` input of `sync_assinantes`, and the row update
  (update keyed on the id column, then execute) becomes an oracle
  `exec : String -> List (String × String) -> Except String Unit`; a raised
  exception is an `Except.error`, which `update_cliente` catches and turns
  into `false`, exactly as the `try/except` in the source does.
* `difflib.SequenceMatcher(None, a, b).ratio()` (Python stdlib, an external
  collaborator; the spec states any deterministic total symmetric similarity is
  substitutable) is abstracted as a parameter `sim : String -> String -> ℚ` of
  the matcher, and also modelled concretely as `difflibSim` below, following
  the documented contract of `find_longest_match` / `get_matching_blocks` /
  `ratio` (valid for strings below the 200-char autojunk limit, which covers
  every name this development evaluates it on).
Floats only ever flow through order comparisons in the source, so they are
modelled as ℚ.
-/

namespace ClubeH11

/-- Mirrors the `ClienteSupabase` dataclass of `supabase_integration.py`. -/
structure ClienteSupabase where
  id : String
  nome : String
  telefone : Option String
  plano_atual : Option String
  status_assinatura : Option String
  deriving DecidableEq

/-- One scraped subscriber record as consumed by `sync_assinantes`
(the dict keys `nome`, `plano`, `status` read in the loop). -/
structure AssinanteDict where
  nome : String
  plano : String
  status : String
  deriving DecidableEq

/-- The `stats` dictionary built by `sync_assinantes`. -/
structure SyncStats where
  total_cashbarber : Nat
  total_supabase : Nat
  encontrados : Nat
  atualizados : Nat
  nao_encontrados : Nat
  erros : Nat
  nao_encontrados_lista : List String
  deriving DecidableEq

/-- One invocation of the database update operation: the `id` the update is
keyed on and the field map sent to `.update(...)`. -/
structure UpdateCall where
  cliente_id : String
  fields : List (String × String)
  deriving DecidableEq

/-- The configurable column names of `SupabaseIntegration.__init__` /
`update_cliente` (env defaults `plano_atual`, `status_assinatura`,
`ultima_sincronizacao`). -/
structure SyncConfig where
  column_plano : String
  column_status : String
  column_timestamp : String
  deriving DecidableEq

/-- The env-default column configuration. -/
def defaultCfg : SyncConfig :=
  ⟨"plano_atual", "status_assinatura", "ultima_sincronizacao"⟩

/-- Drop whitespace from both ends of a character list (`str.strip`). -/
def trimChars (l : List Char) : List Char :=
  ((l.dropWhile Char.isWhitespace).reverse.dropWhile Char.isWhitespace).reverse

/-- `s.lower().strip()` as applied to both the query and each candidate name
in `find_cliente_by_name`, computed on the character list (ASCII lowering,
as in `String.toLower`). -/
def normName (s : String) : String :=
  ⟨trimChars (s.data.map Char.toLower)⟩

/-! ### Model of `difflib.SequenceMatcher.ratio`

`difflibSim` follows the documented contract of the stdlib:
`find_longest_match` returns, among all maximal matching blocks, the one
starting earliest in `a`, ties broken by earliest start in `b`;
`get_matching_blocks` recurses on the pieces left and right of that block;
`ratio` is `2*M / (len(a)+len(b))` with `M` the total size of the matching
blocks (and `1.0` when both strings are empty). Junk handling is the
identity for the short strings involved here. -/

/-- Length of the longest common run starting at the heads of both lists. -/
def commonRunLen : List Char → List Char → Nat
  | x :: xs, y :: ys => if x = y then commonRunLen xs ys + 1 else 0
  | _, _ => 0

/-- Size of the matching block of `a`/`b` that starts at offsets `i`/`j`. -/
def blockAt (a b : List Char) (i j : Nat) : Nat :=
  commonRunLen (a.drop i) (b.drop j)

/-- All candidate block start offsets, in the scan order of
`find_longest_match` (ascending in `a`, then ascending in `b`). -/
def matchPairs (a b : List Char) : List (Nat × Nat) :=
  (List.range (a.length + 1)).flatMap
    (fun i => (List.range (b.length + 1)).map (fun j => (i, j)))

/-- Keep the incumbent unless the new block is strictly larger, so that the
earliest maximal block wins, per the documented tie-break. -/
def lmStep (a b : List Char) (best : Nat × Nat × Nat) (p : Nat × Nat) :
    Nat × Nat × Nat :=
  let k := blockAt a b p.1 p.2
  if k > best.2.2 then (p.1, p.2, k) else best

/-- `find_longest_match` over whole strings: `(i, j, size)`. -/
def longestMatch (a b : List Char) : Nat × Nat × Nat :=
  (matchPairs a b).foldl (lmStep a b) (0, 0, 0)

/-- Total size of all matching blocks (`get_matching_blocks` recursion).
The fuel argument strictly exceeds the recursion depth, which is bounded by
the length of `a`, so it never runs out on the initial call below. -/
def matchSumF : Nat → List Char → List Char → Nat
  | 0, _, _ => 0
  | fuel + 1, a, b =>
    let m := longestMatch a b
    if m.2.2 = 0 then 0
    else
      matchSumF fuel (a.take m.1) (b.take m.2.1) + m.2.2 +
        matchSumF fuel (a.drop (m.1 + m.2.2)) (b.drop (m.2.1 + m.2.2))

/-- Total matched characters between `a` and `b`. -/
def matchSum (a b : List Char) : Nat := matchSumF (a.length + b.length + 1) a b

/-- `SequenceMatcher(None, a, b).ratio()`: the exact rational
`2*M / (len(a)+len(b))`, built with `mkRat`. -/
def difflibSim (a b : String) : ℚ :=
  if a.data.length + b.data.length = 0 then 1
  else mkRat (2 * (matchSum a.data b.data : Int)) (a.data.length + b.data.length)

/-! ### `find_cliente_by_name` -/

/-- The Python default `threshold=0.85`. -/
def defaultThreshold : ℚ := mkRat 85 100

/-- The candidate loop of `find_cliente_by_name`: `q` is the already
normalized query, `bm`/`br` are the running `best_match`/`best_ratio`;
an exact normalized-name hit returns immediately, otherwise the running best
is replaced exactly when the similarity is strictly greater, and after the
loop `best_match` is returned iff `best_ratio >= threshold`. -/
def findGo (sim : String → String → ℚ) (threshold : ℚ) (q : String) :
    List ClienteSupabase → Option ClienteSupabase → ℚ → Option ClienteSupabase
  | [], bm, br => if br ≥ threshold then bm else none
  | c :: cs, bm, br =>
    if q = normName c.nome then some c
    else
      if sim q (normName c.nome) > br then
        findGo sim threshold q cs (some c) (sim q (normName c.nome))
      else
        findGo sim threshold q cs bm br

/-- `SupabaseIntegration.find_cliente_by_name`, with the similarity function
(`difflib.SequenceMatcher` in the source) abstracted as `sim`. -/
def find_cliente_by_name (sim : String → String → ℚ) (nome_busca : String)
    (clientes : List ClienteSupabase) (threshold : ℚ) :
    Option ClienteSupabase :=
  findGo sim threshold (normName nome_busca) clientes none 0

/-- Similarity of an (already normalized) query against one candidate,
exactly as computed inside the loop. -/
def simOf (sim : String → String → ℚ) (q : String) (c : ClienteSupabase) : ℚ :=
  sim q (normName c.nome)

/-- The running maximum the loop ends with when no exact match occurs:
maximum of all candidate similarities and of the initial `best_ratio = 0.0`. -/
def bestSim (sim : String → String → ℚ) (nome_busca : String)
    (clientes : List ClienteSupabase) : ℚ :=
  (clientes.map (simOf sim (normName nome_busca))).foldl max 0

/-- The fuzzy scan of the loop without the threshold test: final
`(best_match, best_ratio)` pair over the remaining candidates. -/
def fuzzyGo (sim : String → String → ℚ) (q : String) :
    List ClienteSupabase → Option ClienteSupabase → ℚ →
      Option ClienteSupabase × ℚ
  | [], bm, br => (bm, br)
  | c :: cs, bm, br =>
    if sim q (normName c.nome) > br then
      fuzzyGo sim q cs (some c) (sim q (normName c.nome))
    else
      fuzzyGo sim q cs bm br

/-! ### `update_cliente` and `normalize_status` -/

/-- The `update_data` dict built by `update_cliente`: plan and status columns,
plus — whenever `update_timestamp` is true, its default — the timestamp
column set to `now()`. -/
def update_data (cfg : SyncConfig) (plano status : String)
    (update_timestamp : Bool) : List (String × String) :=
  [(cfg.column_plano, plano), (cfg.column_status, status)] ++
    (if update_timestamp then [(cfg.column_timestamp, "now()")] else [])

/-- `SupabaseIntegration.update_cliente`: issue one update with
`update_data`; any exception from the client (`Except.error`) is caught and
reported as `false`, success as `true`. -/
def update_cliente (exec : String → List (String × String) → Except String Unit)
    (cfg : SyncConfig) (cliente_id plano status : String)
    (update_timestamp : Bool) : Bool :=
  match exec cliente_id (update_data cfg plano status update_timestamp) with
  | Except.ok _ => true
  | Except.error _ => false

/-- Model of the PostgREST-backed client used by the source: an update whose
field map names a column absent from the table schema raises, any other
update succeeds. -/
def schemaExec (schema : List String) :
    String → List (String × String) → Except String Unit :=
  fun _ fields =>
    if fields.all (fun kv => schema.contains kv.1) then Except.ok ()
    else Except.error "column not found in schema"

/-- `CashbarberExtractor.normalize_status`: the fixed `status_map` lookup
with default `desconhecido`. -/
def normalize_status (status : String) : String :=
  if status = "Em dia" then "ativo"
  else if status = "Pagamento recusado" then "inadimplente"
  else if status = "Cancelado" then "cancelado"
  else if status = "Pendente" then "pendente"
  else "desconhecido"

/-! ### `sync_assinantes` -/

/-- Initial `stats` dict of `sync_assinantes`. -/
def initStats (clientes : List ClienteSupabase)
    (assinantes : List AssinanteDict) : SyncStats :=
  ⟨assinantes.length, clientes.length, 0, 0, 0, 0, []⟩

/-- One iteration of the `for assinante in assinantes_cashbarber` loop,
also threading the list of update calls issued so far (the observable
database writes). -/
def syncStep (sim : String → String → ℚ)
    (exec : String → List (String × String) → Except String Unit)
    (cfg : SyncConfig) (clientes : List ClienteSupabase) (dry_run : Bool)
    (st : SyncStats × List UpdateCall) (assinante : AssinanteDict) :
    SyncStats × List UpdateCall :=
  match find_cliente_by_name sim assinante.nome clientes defaultThreshold with
  | some cliente =>
    let stats1 := { st.1 with encontrados := st.1.encontrados + 1 }
    if !dry_run then
      if update_cliente exec cfg cliente.id assinante.plano assinante.status true then
        ({ stats1 with atualizados := stats1.atualizados + 1 },
          st.2 ++ [⟨cliente.id, update_data cfg assinante.plano assinante.status true⟩])
      else
        ({ stats1 with erros := stats1.erros + 1 },
          st.2 ++ [⟨cliente.id, update_data cfg assinante.plano assinante.status true⟩])
    else
      ({ stats1 with atualizados := stats1.atualizados + 1 }, st.2)
  | none =>
    ({ st.1 with
        nao_encontrados := st.1.nao_encontrados + 1,
        nao_encontrados_lista := st.1.nao_encontrados_lista ++ [assinante.nome] },
      st.2)

/-- `SupabaseIntegration.sync_assinantes`: the customer snapshot (the result
of the one-time `get_all_clientes` fetch) is the `clientes` input; returns the
final statistics together with the sequence of update calls issued. -/
def sync_assinantes (sim : String → String → ℚ)
    (exec : String → List (String × String) → Except String Unit)
    (cfg : SyncConfig) (clientes : List ClienteSupabase)
    (assinantes : List AssinanteDict) (dry_run : Bool) :
    SyncStats × List UpdateCall :=
  assinantes.foldl (syncStep sim exec cfg clientes dry_run)
    (initStats clientes assinantes, [])

/-- Whether a scraped record finds a match under the default threshold. -/
def matchedB (sim : String → String → ℚ) (clientes : List ClienteSupabase)
    (a : AssinanteDict) : Bool :=
  (find_cliente_by_name sim a.nome clientes defaultThreshold).isSome

/-- Whether a scraped record finds a match whose update call succeeds. -/
def okB (sim : String → String → ℚ)
    (exec : String → List (String × String) → Except String Unit)
    (cfg : SyncConfig) (clientes : List ClienteSupabase)
    (a : AssinanteDict) : Bool :=
  match find_cliente_by_name sim a.nome clientes defaultThreshold with
  | some cliente => update_cliente exec cfg cliente.id a.plano a.status true
  | none => false

/-- The update call a scraped record gives rise to, if it matches. -/
def callOf (sim : String → String → ℚ) (cfg : SyncConfig)
    (clientes : List ClienteSupabase) (a : AssinanteDict) : Option UpdateCall :=
  (find_cliente_by_name sim a.nome clientes defaultThreshold).map
    (fun cliente => ⟨cliente.id, update_data cfg a.plano a.status true⟩)

/-! ### Effect of the issued writes on the snapshot (for idempotence) -/

/-- Effect of one field map on one row: the update is a plain overwrite of
the plan/status columns (the timestamp column has no counterpart in the
`ClienteSupabase` projection); `id` and `nome` are never written. -/
def applyFields (cfg : SyncConfig) (c : ClienteSupabase)
    (fields : List (String × String)) : ClienteSupabase :=
  { c with
    plano_atual :=
      match fields.lookup cfg.column_plano with
      | some v => some v
      | none => c.plano_atual,
    status_assinatura :=
      match fields.lookup cfg.column_status with
      | some v => some v
      | none => c.status_assinatura }

/-- Effect of one update call on the snapshot (rows whose id column equals
the keyed cliente_id). -/
def applyCall (cfg : SyncConfig) (cs : List ClienteSupabase)
    (call : UpdateCall) : List ClienteSupabase :=
  cs.map (fun c =>
    if c.id = call.cliente_id then applyFields cfg c call.fields else c)

/-- Effect of a whole trace of update calls on the snapshot. -/
def applyTrace (cfg : SyncConfig) (cs : List ClienteSupabase)
    (trace : List UpdateCall) : List ClienteSupabase :=
  trace.foldl (applyCall cfg) cs

/-! ## Lemmas about the matcher loop -/

theorem findGo_exact (sim : String → String → ℚ) (t : ℚ) (q : String) :
    ∀ (cs : List ClienteSupabase) (bm : Option ClienteSupabase) (br : ℚ),
      (∃ c ∈ cs, normName c.nome = q) →
      findGo sim t q cs bm br = cs.find? (fun c => normName c.nome == q) := by
  intro cs
  induction cs with
  | nil => intro bm br h; obtain ⟨c, hc, _⟩ := h; exact absurd hc (List.not_mem_nil c)
  | cons c cs ih =>
    intro bm br h
    by_cases hq : q = normName c.nome
    · simp [findGo, List.find?, hq.symm, if_pos rfl]
    · have htail : ∃ w ∈ cs, normName w.nome = q := by
        obtain ⟨w, hw, hwq⟩ := h
        rcases List.mem_cons.mp hw with rfl | hw'
        · exact absurd hwq.symm hq
        · exact ⟨w, hw', hwq⟩
      have hb : (normName c.nome == q) = false := by
        simp [beq_iff_eq]; intro hh; exact hq hh.symm
      simp only [findGo, if_neg hq, List.find?, hb]
      by_cases hr : sim q (normName c.nome) > br
      · rw [if_pos hr]; exact ih (some c) (sim q (normName c.nome)) htail
      · rw [if_neg hr]; exact ih bm br htail

theorem fuzzyGo_snd (sim : String → String → ℚ) (q : String) :
    ∀ (cs : List ClienteSupabase) (bm : Option ClienteSupabase) (br : ℚ),
      (fuzzyGo sim q cs bm br).2 = (cs.map (simOf sim q)).foldl max br := by
  intro cs
  induction cs with
  | nil => intro bm br; rfl
  | cons c cs ih =>
    intro bm br
    by_cases hr : sim q (normName c.nome) > br
    · simp only [fuzzyGo, if_pos hr, List.map_cons, List.foldl_cons, ih, simOf]
      congr 1
      exact (max_eq_right (le_of_lt hr)).symm
    · have hle : sim q (normName c.nome) ≤ br := le_of_not_lt hr
      simp only [fuzzyGo, if_neg hr, List.map_cons, List.foldl_cons, ih, simOf]
      congr 1
      exact (max_eq_left hle).symm

theorem fuzzyGo_keep (sim : String → String → ℚ) (q : String) :
    ∀ (cs : List ClienteSupabase) (bm : Option ClienteSupabase) (br : ℚ),
      (∀ c ∈ cs, simOf sim q c ≤ br) →
      fuzzyGo sim q cs bm br = (bm, br) := by
  intro cs
  induction cs with
  | nil => intro bm br _; rfl
  | cons c cs ih =>
    intro bm br h
    have hc : simOf sim q c ≤ br := h c (List.mem_cons_self c cs)
    have hr : ¬ sim q (normName c.nome) > br := not_lt.mpr hc
    simp only [fuzzyGo, if_neg hr]
    exact ih bm br (fun w hw => h w (List.mem_cons_of_mem c hw))

theorem fuzzyGo_first (sim : String → String → ℚ) (q : String) (R : ℚ) :
    ∀ (cs : List ClienteSupabase) (bm : Option ClienteSupabase) (br : ℚ)
      (k : Nat) (hk : k < cs.length),
      simOf sim q (cs.get ⟨k, hk⟩) = R →
      (∀ m (hm : m < k), simOf sim q (cs.get ⟨m, hm.trans hk⟩) < R) →
      br < R →
      (∀ c ∈ cs, simOf sim q c ≤ R) →
      (fuzzyGo sim q cs bm br).1 = some (cs.get ⟨k, hk⟩) := by
  intro cs
  induction cs with
  | nil => intro bm br k hk; exact absurd hk (Nat.not_lt_zero k)
  | cons c cs ih =>
    intro bm br k hk hbest hfirst hbr hall
    cases k with
    | zero =>
      have hc : simOf sim q c = R := hbest
      have hr : sim q (normName c.nome) > br := by
        have : simOf sim q c > br := hc ▸ hbr
        exact this
      simp only [fuzzyGo, if_pos hr]
      have hkeep := fuzzyGo_keep sim q cs (some c) (sim q (normName c.nome))
        (fun w hw => by
          have h1 : simOf sim q w ≤ R := hall w (List.mem_cons_of_mem c hw)
          have h2 : (sim q (normName c.nome)) = R := hc
          rw [h2]; exact h1)
      rw [hkeep]
      rfl
    | succ k' =>
      have hk' : k' < cs.length := Nat.lt_of_succ_lt_succ hk
      have h0 : simOf sim q c < R := hfirst 0 (Nat.succ_pos k')
      have hget : (c :: cs).get ⟨k' + 1, hk⟩ = cs.get ⟨k', hk'⟩ := rfl
      by_cases hr : sim q (normName c.nome) > br
      · simp only [fuzzyGo, if_pos hr, hget]
        exact ih (some c) (sim q (normName c.nome)) k' hk' hbest
          (fun m hm => hfirst (m + 1) (Nat.succ_lt_succ hm)) h0
          (fun w hw => hall w (List.mem_cons_of_mem c hw))
      · simp only [fuzzyGo, if_neg hr, hget]
        exact ih bm br k' hk' hbest
          (fun m hm => hfirst (m + 1) (Nat.succ_lt_succ hm)) hbr
          (fun w hw => hall w (List.mem_cons_of_mem c hw))

theorem findGo_no_exact (sim : String → String → ℚ) (t : ℚ) (q : String) :
    ∀ (cs : List ClienteSupabase) (bm : Option ClienteSupabase) (br : ℚ),
      (∀ c ∈ cs, normName c.nome ≠ q) →
      findGo sim t q cs bm br =
        (if (fuzzyGo sim q cs bm br).2 ≥ t then (fuzzyGo sim q cs bm br).1
         else none) := by
  intro cs
  induction cs with
  | nil => intro bm br _; rfl
  | cons c cs ih =>
    intro bm br h
    have hq : q ≠ normName c.nome :=
      fun hh => (h c (List.mem_cons_self c cs)) hh.symm
    have htail : ∀ w ∈ cs, normName w.nome ≠ q :=
      fun w hw => h w (List.mem_cons_of_mem c hw)
    by_cases hr : sim q (normName c.nome) > br
    · simp only [findGo, fuzzyGo, if_neg hq, if_pos hr]
      exact ih (some c) (sim q (normName c.nome)) htail
    · simp only [findGo, fuzzyGo, if_neg hq, if_neg hr]
      exact ih bm br htail

theorem le_foldl_max_s (l : List ℚ) : ∀ b : ℚ, b ≤ l.foldl max b := by
  induction l with
  | nil => intro b; exact le_refl b
  | cons x l ih =>
    intro b
    exact le_trans (le_max_left b x) (ih (max b x))

theorem mem_le_foldl_max (l : List ℚ) :
    ∀ (b x : ℚ), x ∈ l → x ≤ l.foldl max b := by
  induction l with
  | nil => intro b x hx; exact absurd hx (List.not_mem_nil x)
  | cons y l ih =>
    intro b x hx
    rcases List.mem_cons.mp hx with rfl | hx'
    · exact le_trans (le_max_right b x) (le_foldl_max_s l (max b x))
    · exact ih (max b y) x hx'

theorem find_eq_fuzzy (sim : String → String → ℚ) (nome_busca : String)
    (cs : List ClienteSupabase) (t : ℚ)
    (hno : ∀ c ∈ cs, normName c.nome ≠ normName nome_busca) :
    find_cliente_by_name sim nome_busca cs t =
      (if bestSim sim nome_busca cs ≥ t then
        (fuzzyGo sim (normName nome_busca) cs none 0).1
       else none) := by
  unfold find_cliente_by_name
  rw [findGo_no_exact sim t (normName nome_busca) cs none 0 hno]
  rw [fuzzyGo_snd]
  rfl

theorem fuzzy_none_of_nonpos (sim : String → String → ℚ) (nome_busca : String)
    (cs : List ClienteSupabase) (h : bestSim sim nome_busca cs ≤ 0) :
    (fuzzyGo sim (normName nome_busca) cs none 0).1 = none := by
  have hall : ∀ c ∈ cs, simOf sim (normName nome_busca) c ≤ 0 := by
    intro c hc
    have hmem : simOf sim (normName nome_busca) c ∈
        cs.map (simOf sim (normName nome_busca)) := List.mem_map_of_mem _ hc
    exact le_trans (mem_le_foldl_max _ 0 _ hmem) h
  rw [fuzzyGo_keep sim (normName nome_busca) cs none 0 hall]

theorem fuzzy_first_of_best (sim : String → String → ℚ) (nome_busca : String)
    (cs : List ClienteSupabase) (k : Nat) (hk : k < cs.length)
    (hbest : simOf sim (normName nome_busca) (cs.get ⟨k, hk⟩) =
      bestSim sim nome_busca cs)
    (hfirst : ∀ m (hm : m < k),
      simOf sim (normName nome_busca) (cs.get ⟨m, hm.trans hk⟩) <
        bestSim sim nome_busca cs)
    (hpos : 0 < bestSim sim nome_busca cs) :
    (fuzzyGo sim (normName nome_busca) cs none 0).1 = some (cs.get ⟨k, hk⟩) := by
  refine fuzzyGo_first sim (normName nome_busca) (bestSim sim nome_busca cs)
    cs none 0 k hk hbest hfirst hpos ?_
  intro c hc
  have hmem : simOf sim (normName nome_busca) c ∈
      cs.map (simOf sim (normName nome_busca)) := List.mem_map_of_mem _ hc
  exact mem_le_foldl_max _ 0 _ hmem

/-! ## Lemmas about the reconciliation loop -/

theorem okB_imp_matchedB (sim : String → String → ℚ)
    (exec : String → List (String × String) → Except String Unit)
    (cfg : SyncConfig) (clientes : List ClienteSupabase) (a : AssinanteDict)
    (ho : okB sim exec cfg clientes a = true) :
    matchedB sim clientes a = true := by
  unfold okB at ho
  unfold matchedB
  cases hfind : find_cliente_by_name sim a.nome clientes defaultThreshold with
  | none => rw [hfind] at ho; exact absurd ho (by simp)
  | some c => simp [hfind]

theorem countP_ok_split (sim : String → String → ℚ)
    (exec : String → List (String × String) → Except String Unit)
    (cfg : SyncConfig) (clientes : List ClienteSupabase) :
    ∀ l : List AssinanteDict,
      l.countP (okB sim exec cfg clientes) +
        l.countP (fun a => matchedB sim clientes a && ! okB sim exec cfg clientes a) =
      l.countP (matchedB sim clientes) := by
  intro l
  induction l with
  | nil => rfl
  | cons a l ih =>
    by_cases ho : okB sim exec cfg clientes a = true
    · have hm := okB_imp_matchedB sim exec cfg clientes a ho
      simp [List.countP_cons, ho, hm]
      omega
    · have ho' : okB sim exec cfg clientes a = false := by
        cases h : okB sim exec cfg clientes a
        · rfl
        · exact absurd h ho
      by_cases hm : matchedB sim clientes a = true
      · simp [List.countP_cons, ho', hm]
        omega
      · have hm' : matchedB sim clientes a = false := by
          cases h : matchedB sim clientes a
          · rfl
          · exact absurd h hm
        simp [List.countP_cons, ho', hm']
        omega

theorem sync_foldl_spec (sim : String → String → ℚ)
    (exec : String → List (String × String) → Except String Unit)
    (cfg : SyncConfig) (clientes : List ClienteSupabase) (d : Bool) :
    ∀ (assinantes : List AssinanteDict) (st : SyncStats × List UpdateCall),
      List.foldl (syncStep sim exec cfg clientes d) st assinantes =
        (⟨st.1.total_cashbarber,
          st.1.total_supabase,
          st.1.encontrados + assinantes.countP (matchedB sim clientes),
          st.1.atualizados +
            cond d (assinantes.countP (matchedB sim clientes))
                   (assinantes.countP (okB sim exec cfg clientes)),
          st.1.nao_encontrados +
            assinantes.countP (fun a => ! matchedB sim clientes a),
          st.1.erros +
            cond d 0 (assinantes.countP
              (fun a => matchedB sim clientes a && ! okB sim exec cfg clientes a)),
          st.1.nao_encontrados_lista ++
            (assinantes.filter (fun a => ! matchedB sim clientes a)).map
              (fun a => a.nome)⟩,
         st.2 ++ cond d [] (assinantes.filterMap (callOf sim cfg clientes))) := by
  intro assinantes
  induction assinantes with
  | nil =>
    intro st
    obtain ⟨⟨a1, a2, a3, a4, a5, a6, a7⟩, tr⟩ := st
    simp [List.countP_nil, Bool.cond_self]
  | cons a as ih =>
    intro st
    rw [List.foldl_cons]
    cases hfind : find_cliente_by_name sim a.nome clientes defaultThreshold with
    | none =>
      have hm : matchedB sim clientes a = false := by simp [matchedB, hfind]
      have ho : okB sim exec cfg clientes a = false := by simp [okB, hfind]
      have hc : callOf sim cfg clientes a = none := by simp [callOf, hfind]
      rw [show syncStep sim exec cfg clientes d st a =
          ({ st.1 with
              nao_encontrados := st.1.nao_encontrados + 1,
              nao_encontrados_lista :=
                st.1.nao_encontrados_lista ++ [a.nome] }, st.2) by
        simp [syncStep, hfind]]
      rw [ih]
      simp [List.countP_cons, List.filter_cons, List.filterMap_cons,
        hm, ho, hc, Prod.ext_iff, SyncStats.mk.injEq, List.append_assoc,
        Bool.cond_self]
      omega
    | some cliente =>
      have hm : matchedB sim clientes a = true := by simp [matchedB, hfind]
      have hc : callOf sim cfg clientes a =
          some ⟨cliente.id, update_data cfg a.plano a.status true⟩ := by
        simp [callOf, hfind]
      cases d with
      | true =>
        rw [show syncStep sim exec cfg clientes true st a =
            ({ st.1 with
                encontrados := st.1.encontrados + 1,
                atualizados := st.1.atualizados + 1 }, st.2) by
          simp [syncStep, hfind]]
        rw [ih]
        simp [List.countP_cons, List.filter_cons, List.filterMap_cons,
          hm, hc, Prod.ext_iff, SyncStats.mk.injEq, List.append_assoc,
          Bool.cond_self]
        omega
      | false =>
        have hoeq : okB sim exec cfg clientes a =
            update_cliente exec cfg cliente.id a.plano a.status true := by
          simp [okB, hfind]
        cases hu : update_cliente exec cfg cliente.id a.plano a.status true with
        | true =>
          have ho : okB sim exec cfg clientes a = true := by rw [hoeq, hu]
          rw [show syncStep sim exec cfg clientes false st a =
              ({ st.1 with
                  encontrados := st.1.encontrados + 1,
                  atualizados := st.1.atualizados + 1 },
               st.2 ++ [⟨cliente.id, update_data cfg a.plano a.status true⟩]) by
            simp [syncStep, hfind, hu]]
          rw [ih]
          simp [List.countP_cons, List.filter_cons, List.filterMap_cons,
            hm, ho, hc, Prod.ext_iff, SyncStats.mk.injEq, List.append_assoc,
            Bool.cond_self]
          omega
        | false =>
          have ho : okB sim exec cfg clientes a = false := by rw [hoeq, hu]
          rw [show syncStep sim exec cfg clientes false st a =
              ({ st.1 with
                  encontrados := st.1.encontrados + 1,
                  erros := st.1.erros + 1 },
               st.2 ++ [⟨cliente.id, update_data cfg a.plano a.status true⟩]) by
            simp [syncStep, hfind, hu]]
          rw [ih]
          simp [List.countP_cons, List.filter_cons, List.filterMap_cons,
            hm, ho, hc, Prod.ext_iff, SyncStats.mk.injEq, List.append_assoc,
            Bool.cond_self]
          omega

/-! ## Snapshot-map invariance (for idempotence) -/

theorem findGo_map (sim : String → String → ℚ) (t : ℚ) (q : String)
    (f : ClienteSupabase → ClienteSupabase) (hf : ∀ c, (f c).nome = c.nome) :
    ∀ (cs : List ClienteSupabase) (bm : Option ClienteSupabase) (br : ℚ),
      findGo sim t q (cs.map f) (bm.map f) br =
        (findGo sim t q cs bm br).map f := by
  intro cs
  induction cs with
  | nil =>
    intro bm br
    simp only [List.map_nil, findGo]
    split <;> rfl
  | cons c cs ih =>
    intro bm br
    simp only [List.map_cons, findGo, hf c]
    by_cases hq : q = normName c.nome
    · simp [if_pos hq]
    · rw [if_neg hq, if_neg hq]
      by_cases hr : sim q (normName c.nome) > br
      · rw [if_pos hr, if_pos hr]
        exact ih (some c) (sim q (normName c.nome))
      · rw [if_neg hr, if_neg hr]
        exact ih bm br

theorem find_map (sim : String → String → ℚ) (nome_busca : String) (t : ℚ)
    (f : ClienteSupabase → ClienteSupabase) (hf : ∀ c, (f c).nome = c.nome)
    (cs : List ClienteSupabase) :
    find_cliente_by_name sim nome_busca (cs.map f) t =
      (find_cliente_by_name sim nome_busca cs t).map f := by
  unfold find_cliente_by_name
  have h := findGo_map sim t (normName nome_busca) f hf cs none 0
  simpa using h

theorem syncStep_map (sim : String → String → ℚ)
    (exec : String → List (String × String) → Except String Unit)
    (cfg : SyncConfig) (d : Bool)
    (f : ClienteSupabase → ClienteSupabase)
    (hf : ∀ c, (f c).nome = c.nome) (hid : ∀ c, (f c).id = c.id)
    (cs : List ClienteSupabase) (st : SyncStats × List UpdateCall)
    (a : AssinanteDict) :
    syncStep sim exec cfg (cs.map f) d st a = syncStep sim exec cfg cs d st a := by
  unfold syncStep
  rw [find_map sim a.nome defaultThreshold f hf cs]
  cases hfind : find_cliente_by_name sim a.nome cs defaultThreshold with
  | none => rfl
  | some cliente => simp [Option.map_some, hid cliente]

theorem sync_map (sim : String → String → ℚ)
    (exec : String → List (String × String) → Except String Unit)
    (cfg : SyncConfig) (d : Bool)
    (f : ClienteSupabase → ClienteSupabase)
    (hf : ∀ c, (f c).nome = c.nome) (hid : ∀ c, (f c).id = c.id)
    (cs : List ClienteSupabase) (assinantes : List AssinanteDict) :
    sync_assinantes sim exec cfg (cs.map f) assinantes d =
      sync_assinantes sim exec cfg cs assinantes d := by
  unfold sync_assinantes
  have hstep : syncStep sim exec cfg (cs.map f) d = syncStep sim exec cfg cs d :=
    funext (fun st => funext (fun a => syncStep_map sim exec cfg d f hf hid cs st a))
  rw [hstep]
  simp [initStats]

theorem applyFields_nome (cfg : SyncConfig) (c : ClienteSupabase)
    (fields : List (String × String)) : (applyFields cfg c fields).nome = c.nome :=
  rfl

theorem applyFields_id (cfg : SyncConfig) (c : ClienteSupabase)
    (fields : List (String × String)) : (applyFields cfg c fields).id = c.id :=
  rfl

theorem applyTrace_is_map (cfg : SyncConfig) :
    ∀ (trace : List UpdateCall) (cs : List ClienteSupabase),
      ∃ f : ClienteSupabase → ClienteSupabase,
        applyTrace cfg cs trace = cs.map f ∧
        (∀ c, (f c).nome = c.nome) ∧ (∀ c, (f c).id = c.id) := by
  intro trace
  induction trace with
  | nil =>
    intro cs
    exact ⟨id, (List.map_id cs).symm, fun c => rfl, fun c => rfl⟩
  | cons call tr ih =>
    intro cs
    obtain ⟨f', heq, hf', hid'⟩ := ih
      (cs.map (fun c =>
        if c.id = call.cliente_id then applyFields cfg c call.fields else c))
    refine ⟨fun c =>
      f' (if c.id = call.cliente_id then applyFields cfg c call.fields else c),
      ?_, ?_, ?_⟩
    · have h1 : applyTrace cfg cs (call :: tr) =
          applyTrace cfg (applyCall cfg cs call) tr := rfl
      rw [h1]
      unfold applyCall
      rw [heq, List.map_map]
      rfl
    · intro c
      rw [hf']
      by_cases h : c.id = call.cliente_id
      · rw [if_pos h]; exact applyFields_nome cfg c call.fields
      · rw [if_neg h]
    · intro c
      rw [hid']
      by_cases h : c.id = call.cliente_id
      · rw [if_pos h]; exact applyFields_id cfg c call.fields
      · rw [if_neg h]

theorem countP_add_countP_not {α : Type} (p : α → Bool) :
    ∀ l : List α, l.countP p + l.countP (fun a => ! p a) = l.length := by
  intro l
  induction l with
  | nil => rfl
  | cons a l ih => cases h : p a <;> simp [List.countP_cons, h] <;> omega

/-! ## The claims -/

/-- Claim C1: for every query name and candidate sequence, if some candidate's
normalized (trimmed, case-folded) name equals the normalized query name, then
`find_cliente_by_name` returns the first such candidate in iteration order —
for every similarity function and every threshold, so no similarity ratio of
any other candidate and no threshold comparison decides the result. -/
theorem C1_exact_match_short_circuit (sim : String → String → ℚ)
    (nome_busca : String) (clientes : List ClienteSupabase) (threshold : ℚ)
    (h : ∃ c ∈ clientes, normName c.nome = normName nome_busca) :
    find_cliente_by_name sim nome_busca clientes threshold =
      clientes.find? (fun c => normName c.nome == normName nome_busca) :=
  findGo_exact sim threshold (normName nome_busca) clientes none 0 h

/-- Witness for C1: the query " Ana " matches the candidate named "ana"
exactly after normalization, and is returned even at threshold 2 (unreachable
by any ratio) and with a competing candidate in front of it. -/
theorem C1_exact_match_short_circuit_witness :
    find_cliente_by_name difflibSim " Ana "
      [⟨"1", "zzz", none, none, none⟩, ⟨"2", "ana", none, none, none⟩] 2 =
      some ⟨"2", "ana", none, none, none⟩ := by
  have h := C1_exact_match_short_circuit difflibSim " Ana "
    [⟨"1", "zzz", none, none, none⟩, ⟨"2", "ana", none, none, none⟩] 2
    ⟨⟨"2", "ana", none, none, none⟩, by decide, by decide⟩
  rw [h]
  decide

/-- Claim C2 counterexample: at threshold 0 with a single candidate sharing no
character with the query, there is no exact match, the best-scoring
candidate's ratio (0) is ≥ the threshold, yet the function returns no match —
refuting "returns the best-scoring candidate exactly when its ratio is
>= threshold". -/
theorem C2_threshold_counterexample :
    normName "a" ≠ normName "b" ∧
    bestSim difflibSim "a" [⟨"1", "b", none, none, none⟩] = 0 ∧
    bestSim difflibSim "a" [⟨"1", "b", none, none, none⟩] ≥ 0 ∧
    find_cliente_by_name difflibSim "a" [⟨"1", "b", none, none, none⟩] 0 =
      none := by
  refine ⟨by decide, by decide, by decide, by decide⟩

/-- Claim C2 (amended): with no exact match, the function returns none
whenever the best ratio is strictly below the threshold; it returns the first
best-scoring candidate whenever the best ratio is ≥ the threshold AND strictly
positive (the running best starts at 0 and is only replaced by strictly
greater ratios, so a best ratio of exactly 0 yields no match even when the
threshold is 0); and the result is monotone in the threshold: lowering the
threshold preserves any returned match. -/
theorem C2_threshold_amended (sim : String → String → ℚ) (nome_busca : String)
    (cs : List ClienteSupabase) (t : ℚ)
    (hno : ∀ c ∈ cs, normName c.nome ≠ normName nome_busca) :
    (bestSim sim nome_busca cs < t →
      find_cliente_by_name sim nome_busca cs t = none) ∧
    (∀ (k : Nat) (hk : k < cs.length),
      simOf sim (normName nome_busca) (cs.get ⟨k, hk⟩) =
        bestSim sim nome_busca cs →
      (∀ m (hm : m < k),
        simOf sim (normName nome_busca) (cs.get ⟨m, hm.trans hk⟩) <
          bestSim sim nome_busca cs) →
      0 < bestSim sim nome_busca cs → t ≤ bestSim sim nome_busca cs →
      find_cliente_by_name sim nome_busca cs t = some (cs.get ⟨k, hk⟩)) ∧
    (∀ (t' : ℚ) (c : ClienteSupabase), t' ≤ t →
      find_cliente_by_name sim nome_busca cs t = some c →
      find_cliente_by_name sim nome_busca cs t' = some c) := by
  refine ⟨?_, ?_, ?_⟩
  · intro hlt
    rw [find_eq_fuzzy sim nome_busca cs t hno, if_neg (not_le.mpr hlt)]
  · intro k hk hbest hfirst hpos hle
    rw [find_eq_fuzzy sim nome_busca cs t hno, if_pos hle]
    exact fuzzy_first_of_best sim nome_busca cs k hk hbest hfirst hpos
  · intro t' c ht' hc
    rw [find_eq_fuzzy sim nome_busca cs t hno] at hc
    by_cases hge : bestSim sim nome_busca cs ≥ t
    · rw [if_pos hge] at hc
      rw [find_eq_fuzzy sim nome_busca cs t' hno, if_pos (le_trans ht' hge)]
      exact hc
    · rw [if_neg hge] at hc
      exact absurd hc (by simp)

/-- Witness for C2 (amended): query "ab" against candidates "ac", "zz" (no
exact match): the first candidate is the unique best (ratio 1/2 > 0), so it is
returned at threshold 1/2, and the match survives lowering the threshold
to 0. -/
theorem C2_threshold_amended_witness :
    find_cliente_by_name difflibSim "ab"
      [⟨"1", "ac", none, none, none⟩, ⟨"2", "zz", none, none, none⟩]
      (mkRat 1 2) = some ⟨"1", "ac", none, none, none⟩ ∧
    find_cliente_by_name difflibSim "ab"
      [⟨"1", "ac", none, none, none⟩, ⟨"2", "zz", none, none, none⟩] 0 =
      some ⟨"1", "ac", none, none, none⟩ := by
  have h := C2_threshold_amended difflibSim "ab"
    [⟨"1", "ac", none, none, none⟩, ⟨"2", "zz", none, none, none⟩]
    (mkRat 1 2) (by decide)
  have h2 := h.2.1 0 (by decide) (by decide)
    (fun m hm => absurd hm (Nat.not_lt_zero m)) (by decide) (by decide)
  exact ⟨h2, h.2.2 0 _ (by decide) h2⟩

/-- Claim C3: with no exact match, when the maximal similarity is attained at
index `k` and only strictly smaller similarities occur before `k` (in
particular when further candidates tie at the maximum), the function returns
the candidate at `k` whenever it returns at all (the running best is replaced
only on strictly greater ratios), and does return it when the maximum is ≥
the threshold and positive — so the result is deterministic and
order-stable. -/
theorem C3_tie_first_in_order (sim : String → String → ℚ) (nome_busca : String)
    (cs : List ClienteSupabase) (t : ℚ) (k : Nat) (hk : k < cs.length)
    (hno : ∀ c ∈ cs, normName c.nome ≠ normName nome_busca)
    (hbest : simOf sim (normName nome_busca) (cs.get ⟨k, hk⟩) =
      bestSim sim nome_busca cs)
    (hfirst : ∀ m (hm : m < k),
      simOf sim (normName nome_busca) (cs.get ⟨m, hm.trans hk⟩) <
        bestSim sim nome_busca cs)
    (_htie : ∃ l, ∃ hl : l < cs.length, k < l ∧
      simOf sim (normName nome_busca) (cs.get ⟨l, hl⟩) =
        bestSim sim nome_busca cs) :
    (t ≤ bestSim sim nome_busca cs → 0 < bestSim sim nome_busca cs →
      find_cliente_by_name sim nome_busca cs t = some (cs.get ⟨k, hk⟩)) ∧
    (∀ c, find_cliente_by_name sim nome_busca cs t = some c →
      c = cs.get ⟨k, hk⟩) := by
  constructor
  · intro hle hpos
    rw [find_eq_fuzzy sim nome_busca cs t hno, if_pos hle]
    exact fuzzy_first_of_best sim nome_busca cs k hk hbest hfirst hpos
  · intro c hc
    rw [find_eq_fuzzy sim nome_busca cs t hno] at hc
    by_cases hge : bestSim sim nome_busca cs ≥ t
    · rw [if_pos hge] at hc
      by_cases hpos : 0 < bestSim sim nome_busca cs
      · rw [fuzzy_first_of_best sim nome_busca cs k hk hbest hfirst hpos] at hc
        exact (Option.some.inj hc).symm
      · rw [fuzzy_none_of_nonpos sim nome_busca cs (le_of_not_lt hpos)] at hc
        exact absurd hc (by simp)
    · rw [if_neg hge] at hc
      exact absurd hc (by simp)

/-- Witness for C3: "ab" against "ac" and "ad" — both have ratio 1/2 (a tie at
the maximum), and the first is returned at threshold 1/2. -/
theorem C3_tie_first_in_order_witness :
    find_cliente_by_name difflibSim "ab"
      [⟨"1", "ac", none, none, none⟩, ⟨"2", "ad", none, none, none⟩]
      (mkRat 1 2) = some ⟨"1", "ac", none, none, none⟩ := by
  have h := C3_tie_first_in_order difflibSim "ab"
    [⟨"1", "ac", none, none, none⟩, ⟨"2", "ad", none, none, none⟩]
    (mkRat 1 2) 0 (by decide) (by decide) (by decide)
    (fun m hm => absurd hm (Nat.not_lt_zero m))
    ⟨1, by decide, by decide, by decide⟩
  exact h.1 (by decide) (by decide)

/-- Claim C4 counterexample: over the same single matching record, a dry run
and a live run whose one update call fails report different statistics
(dry: atualizados 1, erros 0; live: atualizados 0, erros 1) even though the
match outcomes are identical — refuting "a dry run and a live run over the
same inputs with the same match outcomes report identical statistics". -/
theorem C4_dry_run_counterexample :
    (sync_assinantes difflibSim (fun _ _ => Except.error "down") defaultCfg
        [⟨"1", "ana", none, none, none⟩] [⟨"ana", "p", "s"⟩] true).1 ≠
    (sync_assinantes difflibSim (fun _ _ => Except.error "down") defaultCfg
        [⟨"1", "ana", none, none, none⟩] [⟨"ana", "p", "s"⟩] false).1 := by
  decide

/-- Claim C4 (amended): a dry run issues zero update calls yet counts
`atualizados` once per matched record (so `atualizados = encontrados`); and a
live run reports statistics identical to the dry run provided every live
update call succeeds (when an update fails, the live run shifts that record
from `atualizados` to `erros`, as the counterexample shows). -/
theorem C4_dry_run_amended (sim : String → String → ℚ)
    (exec : String → List (String × String) → Except String Unit)
    (cfg : SyncConfig) (clientes : List ClienteSupabase)
    (assinantes : List AssinanteDict) :
    (sync_assinantes sim exec cfg clientes assinantes true).2 = [] ∧
    (sync_assinantes sim exec cfg clientes assinantes true).1.atualizados =
      assinantes.countP (matchedB sim clientes) ∧
    (sync_assinantes sim exec cfg clientes assinantes true).1.atualizados =
      (sync_assinantes sim exec cfg clientes assinantes true).1.encontrados ∧
    ((∀ i fs, exec i fs = Except.ok ()) →
      (sync_assinantes sim exec cfg clientes assinantes false).1 =
        (sync_assinantes sim exec cfg clientes assinantes true).1) := by
  have hs := sync_foldl_spec sim exec cfg clientes true assinantes
    (initStats clientes assinantes, [])
  refine ⟨?_, ?_, ?_, ?_⟩
  · unfold sync_assinantes
    rw [hs]
    simp
  · unfold sync_assinantes
    rw [hs]
    simp [initStats]
  · unfold sync_assinantes
    rw [hs]
    simp [initStats]
  · intro hexec
    have hok : ∀ a, okB sim exec cfg clientes a = matchedB sim clientes a := by
      intro a
      unfold okB matchedB update_cliente
      cases hf : find_cliente_by_name sim a.nome clientes defaultThreshold with
      | none => simp
      | some c => simp [hexec]
    have hs' := sync_foldl_spec sim exec cfg clientes false assinantes
      (initStats clientes assinantes, [])
    unfold sync_assinantes
    rw [hs, hs']
    have h1 : assinantes.countP (okB sim exec cfg clientes) =
        assinantes.countP (matchedB sim clientes) := by
      apply List.countP_congr
      intro a _
      rw [hok a]
    have h2 : assinantes.countP
        (fun a => matchedB sim clientes a && ! okB sim exec cfg clientes a) = 0 := by
      rw [List.countP_eq_zero]
      intro a _
      simp [hok a]
    simp [h1, h2]

/-- Witness for C4 (amended): with an always-succeeding update oracle, the
live run over one matching record reports the same statistics as the dry
run. -/
theorem C4_dry_run_amended_witness :
    (sync_assinantes difflibSim (fun _ _ => Except.ok ()) defaultCfg
        [⟨"1", "ana", none, none, none⟩] [⟨"ana", "p", "s"⟩] false).1 =
    (sync_assinantes difflibSim (fun _ _ => Except.ok ()) defaultCfg
        [⟨"1", "ana", none, none, none⟩] [⟨"ana", "p", "s"⟩] true).1 :=
  (C4_dry_run_amended difflibSim (fun _ _ => Except.ok ()) defaultCfg
    [⟨"1", "ana", none, none, none⟩] [⟨"ana", "p", "s"⟩]).2.2.2
    (fun _ _ => rfl)

/-- Claim C5: in a live run, `atualizados` counts exactly the matched records
whose update reports success and `erros` exactly the matched records whose
update reports failure; together they account for every match, and every
record is processed (`encontrados + nao_encontrados` is the whole input), so a
single failure never aborts the pass. Concretely, with 3 matched records of
which the update of id "2" fails, the final statistics are atualizados 2,
erros 1, encontrados 3. -/
theorem C5_update_failure_accounting (sim : String → String → ℚ)
    (exec : String → List (String × String) → Except String Unit)
    (cfg : SyncConfig) (clientes : List ClienteSupabase)
    (assinantes : List AssinanteDict) :
    ((sync_assinantes sim exec cfg clientes assinantes false).1.atualizados =
      assinantes.countP (okB sim exec cfg clientes) ∧
    (sync_assinantes sim exec cfg clientes assinantes false).1.erros =
      assinantes.countP
        (fun a => matchedB sim clientes a && ! okB sim exec cfg clientes a) ∧
    (sync_assinantes sim exec cfg clientes assinantes false).1.atualizados +
      (sync_assinantes sim exec cfg clientes assinantes false).1.erros =
      (sync_assinantes sim exec cfg clientes assinantes false).1.encontrados ∧
    (sync_assinantes sim exec cfg clientes assinantes false).1.encontrados +
      (sync_assinantes sim exec cfg clientes assinantes false).1.nao_encontrados =
      assinantes.length) ∧
    (sync_assinantes difflibSim
        (fun i _ => if i = "2" then Except.error "down" else Except.ok ())
        defaultCfg
        [⟨"1", "ana", none, none, none⟩, ⟨"2", "bia", none, none, none⟩,
          ⟨"3", "caio", none, none, none⟩]
        [⟨"ana", "P", "S"⟩, ⟨"bia", "P", "S"⟩, ⟨"caio", "P", "S"⟩]
        false).1 = ⟨3, 3, 3, 2, 0, 1, []⟩ := by
  have hs := sync_foldl_spec sim exec cfg clientes false assinantes
    (initStats clientes assinantes, [])
  refine ⟨⟨?_, ?_, ?_, ?_⟩, by decide⟩
  · unfold sync_assinantes
    rw [hs]
    simp [initStats]
  · unfold sync_assinantes
    rw [hs]
    simp [initStats]
  · unfold sync_assinantes
    rw [hs]
    simp [initStats]
    exact countP_ok_split sim exec cfg clientes assinantes
  · unfold sync_assinantes
    rw [hs]
    simp [initStats]
    exact countP_add_countP_not (matchedB sim clientes) assinantes

/-- Claim C6 counterexample: a pass over an empty scraped sequence against a
one-customer snapshot returns a statistics object whose `total_supabase`
count is 1, not 0 — refuting "every count is zero". -/
theorem C6_empty_scrape_counterexample :
    (sync_assinantes difflibSim (fun _ _ => Except.ok ()) defaultCfg
        [⟨"1", "a", none, none, none⟩] [] false).1.total_supabase ≠ 0 := by
  decide

/-- Claim C6 (amended): a pass over an empty scraped sequence returns
statistics with every per-record count zero (`encontrados`, `atualizados`,
`nao_encontrados`, `erros`, and `total_cashbarber`), an empty unmatched list,
`total_supabase` equal to the size of the fetched snapshot, and issues no
update call (the one snapshot fetch is the `clientes` input itself and still
occurs). -/
theorem C6_empty_scrape_amended (sim : String → String → ℚ)
    (exec : String → List (String × String) → Except String Unit)
    (cfg : SyncConfig) (clientes : List ClienteSupabase) (d : Bool) :
    sync_assinantes sim exec cfg clientes [] d =
      (⟨0, clientes.length, 0, 0, 0, 0, []⟩, []) :=
  rfl

/-- Claim C7 (the claim is right, the code is wrong): with the default
`update_timestamp=True`, `update_cliente` sends one single update whose field
map includes the timestamp column; against a schema lacking that column the
whole call errors and `update_cliente` returns `false` — the plan/status
write does not survive, contradicting the claimed (and docstring-documented,
"tenta atualizar campo de timestamp (se existir)") best-effort behavior.
Omitting the timestamp field makes the same update succeed. -/
theorem C7_timestamp_not_best_effort :
    update_cliente (schemaExec ["plano_atual", "status_assinatura"]) defaultCfg
      "cliente-1" "Plano Mensal" "ativo" true = false ∧
    update_cliente (schemaExec ["plano_atual", "status_assinatura"]) defaultCfg
      "cliente-1" "Plano Mensal" "ativo" false = true ∧
    (update_data defaultCfg "Plano Mensal" "ativo" true).map Prod.fst =
      ["plano_atual", "status_assinatura", "ultima_sincronizacao"] := by
  refine ⟨by decide, by decide, by decide⟩

/-- Claim C8: `normalize_status` is a pure total function given by the fixed
case-sensitive table ("Em dia" ↦ ativo, "Pagamento recusado" ↦ inadimplente,
"Cancelado" ↦ cancelado, "Pendente" ↦ pendente), and every other input —
including case variants of mapped labels — yields "desconhecido" rather than
erroring. -/
theorem C8_normalize_status_table (s : String)
    (h1 : s ≠ "Em dia") (h2 : s ≠ "Pagamento recusado")
    (h3 : s ≠ "Cancelado") (h4 : s ≠ "Pendente") :
    normalize_status "Em dia" = "ativo" ∧
    normalize_status "Pagamento recusado" = "inadimplente" ∧
    normalize_status "Cancelado" = "cancelado" ∧
    normalize_status "Pendente" = "pendente" ∧
    normalize_status s = "desconhecido" := by
  refine ⟨by decide, by decide, by decide, by decide, ?_⟩
  simp [normalize_status, h1, h2, h3, h4]

/-- Witness for C8: the unmapped label "Foo" and the case variant "EM DIA"
both normalize to "desconhecido". -/
theorem C8_normalize_status_table_witness :
    normalize_status "Foo" = "desconhecido" ∧
    normalize_status "EM DIA" = "desconhecido" := by
  have hf := C8_normalize_status_table "Foo"
    (by decide) (by decide) (by decide) (by decide)
  have hv := C8_normalize_status_table "EM DIA"
    (by decide) (by decide) (by decide) (by decide)
  exact ⟨hf.2.2.2.2, hv.2.2.2.2⟩

/-- Claim C9: the reconciliation pass is deterministic — the same scraped
sequence and customer snapshot always produce the same statistics and the
same writes — and idempotent: re-running the pass after applying its own
writes to the snapshot (the update is a pure overwrite of the plan/status
columns, never of the name or id the matcher reads) reproduces exactly the
same match decisions, the same sequence of update calls, and the same
statistics. -/
theorem C9_idempotent_rerun (sim : String → String → ℚ)
    (exec : String → List (String × String) → Except String Unit)
    (cfg : SyncConfig) (clientes : List ClienteSupabase)
    (assinantes : List AssinanteDict) (d : Bool) :
    sync_assinantes sim exec cfg clientes assinantes d =
      sync_assinantes sim exec cfg clientes assinantes d ∧
    sync_assinantes sim exec cfg
        (applyTrace cfg clientes
          (sync_assinantes sim exec cfg clientes assinantes d).2)
        assinantes d =
      sync_assinantes sim exec cfg clientes assinantes d := by
  refine ⟨rfl, ?_⟩
  obtain ⟨f, heq, hf, hid⟩ := applyTrace_is_map cfg
    (sync_assinantes sim exec cfg clientes assinantes d).2 clientes
  rw [heq]
  exact sync_map sim exec cfg d f hf hid clientes assinantes

/-- Claim C10: the returned statistics always satisfy the accounting
invariants: `encontrados + nao_encontrados = total_cashbarber`; the unmatched
list has length `nao_encontrados`; in a dry run `atualizados = encontrados`
and `erros = 0`; in a live run `atualizados + erros = encontrados`. -/
theorem C10_stats_invariants (sim : String → String → ℚ)
    (exec : String → List (String × String) → Except String Unit)
    (cfg : SyncConfig) (clientes : List ClienteSupabase)
    (assinantes : List AssinanteDict) (d : Bool) :
    (sync_assinantes sim exec cfg clientes assinantes d).1.encontrados +
      (sync_assinantes sim exec cfg clientes assinantes d).1.nao_encontrados =
      (sync_assinantes sim exec cfg clientes assinantes d).1.total_cashbarber ∧
    (sync_assinantes sim exec cfg
        clientes assinantes d).1.nao_encontrados_lista.length =
      (sync_assinantes sim exec cfg clientes assinantes d).1.nao_encontrados ∧
    (d = true →
      (sync_assinantes sim exec cfg clientes assinantes d).1.atualizados =
        (sync_assinantes sim exec cfg clientes assinantes d).1.encontrados ∧
      (sync_assinantes sim exec cfg clientes assinantes d).1.erros = 0) ∧
    (d = false →
      (sync_assinantes sim exec cfg clientes assinantes d).1.atualizados +
        (sync_assinantes sim exec cfg clientes assinantes d).1.erros =
        (sync_assinantes sim exec cfg clientes assinantes d).1.encontrados) := by
  have hs := sync_foldl_spec sim exec cfg clientes d assinantes
    (initStats clientes assinantes, [])
  refine ⟨?_, ?_, ?_, ?_⟩
  · unfold sync_assinantes
    rw [hs]
    simp [initStats]
    exact countP_add_countP_not (matchedB sim clientes) assinantes
  · unfold sync_assinantes
    rw [hs]
    simp [initStats, List.countP_eq_length_filter]
  · intro hd
    subst hd
    unfold sync_assinantes
    rw [hs]
    simp [initStats]
  · intro hd
    subst hd
    unfold sync_assinantes
    rw [hs]
    simp [initStats]
    exact countP_ok_split sim exec cfg clientes assinantes

/-- Witness for C10: the dry-run and live-run invariants at a concrete input
with one matching and one non-matching record. -/
theorem C10_stats_invariants_witness :
    ((sync_assinantes difflibSim (fun _ _ => Except.ok ()) defaultCfg
        [⟨"1", "ana", none, none, none⟩]
        [⟨"ana", "p", "s"⟩, ⟨"zqx", "p", "s"⟩] true).1.atualizados =
      (sync_assinantes difflibSim (fun _ _ => Except.ok ()) defaultCfg
        [⟨"1", "ana", none, none, none⟩]
        [⟨"ana", "p", "s"⟩, ⟨"zqx", "p", "s"⟩] true).1.encontrados ∧
    (sync_assinantes difflibSim (fun _ _ => Except.ok ()) defaultCfg
        [⟨"1", "ana", none, none, none⟩]
        [⟨"ana", "p", "s"⟩, ⟨"zqx", "p", "s"⟩] true).1.erros = 0) ∧
    (sync_assinantes difflibSim (fun _ _ => Except.ok ()) defaultCfg
        [⟨"1", "ana", none, none, none⟩]
        [⟨"ana", "p", "s"⟩, ⟨"zqx", "p", "s"⟩] false).1.atualizados +
      (sync_assinantes difflibSim (fun _ _ => Except.ok ()) defaultCfg
        [⟨"1", "ana", none, none, none⟩]
        [⟨"ana", "p", "s"⟩, ⟨"zqx", "p", "s"⟩] false).1.erros =
      (sync_assinantes difflibSim (fun _ _ => Except.ok ()) defaultCfg
        [⟨"1", "ana", none, none, none⟩]
        [⟨"ana", "p", "s"⟩, ⟨"zqx", "p", "s"⟩] false).1.encontrados :=
  ⟨(C10_stats_invariants difflibSim (fun _ _ => Except.ok ()) defaultCfg
      [⟨"1", "ana", none, none, none⟩]
      [⟨"ana", "p", "s"⟩, ⟨"zqx", "p", "s"⟩] true).2.2.1 rfl,
    (C10_stats_invariants difflibSim (fun _ _ => Except.ok ()) defaultCfg
      [⟨"1", "ana", none, none, none⟩]
      [⟨"ana", "p", "s"⟩, ⟨"zqx", "p", "s"⟩] false).2.2.2 rfl⟩

end ClubeH11
